import Mathlib

/-!
# Verification of the lantern startup / bandwidth / survey shim

Shallow embedding of `src/lantern.go` (package `lantern`):

* `translateQuota` — the body of the receive loop in `bandwidthUpdates`
  (lantern.go:194-220), including the exact IEEE-754 binary64 arithmetic the
  Go code uses for the percent computation (`fl` below models rounding a real
  value to the nearest double, round-to-nearest, ties-to-even; all values
  reached by the theorems in this file lie well inside the normal range, so
  overflow/subnormal behaviour is irrelevant).  Rational division by zero in
  Lean yields `0` where Go would produce `±Inf`; that region
  (`MiBAllowed = 0 ∧ MiBUsed < 0`) is not relied upon by any theorem below.
* `Start` — the readiness-wait logic of `Start` (lantern.go:110-130) over an
  idealized discrete-time model of the two readiness signals
  (`client.Addr` / `client.Socks5Addr` are external collaborators; `waitAddr`
  models a bounded wait on a one-shot value).
* `runProceedsPastMkdir` — the `os.MkdirAll` / `os.IsExist` check at the top
  of `run` (lantern.go:153-157).
* `extractUrl` — the locale-fallback resolution (lantern.go:236-253).
* `surveyRequest` — the fetch/parse pipeline (lantern.go:255-300) over an
  abstract effect environment.
-/

namespace Lantern

/-! ## IEEE-754 binary64 model over ℚ -/

/-- Round a rational to the nearest integer, ties to even. -/
def rne (q : ℚ) : ℤ :=
  if q - ⌊q⌋ < 1/2 then ⌊q⌋
  else if 1/2 < q - ⌊q⌋ then ⌊q⌋ + 1
  else if ⌊q⌋ % 2 = 0 then ⌊q⌋ else ⌊q⌋ + 1

/-- Round a positive rational to the nearest binary64 value (normal range):
scale into `[2^52, 2^53)`, round the mantissa to nearest (ties to even),
scale back. -/
def flPos (q : ℚ) : ℚ :=
  (rne (q * 2 ^ ((52 : ℤ) - Int.log 2 q)) : ℚ) * 2 ^ (Int.log 2 q - 52)

/-- Round a rational to the nearest binary64 value (normal range). -/
def fl (q : ℚ) : ℚ :=
  if q = 0 then 0 else if 0 < q then flPos q else -flPos (-q)

/-- Go conversion `int(f)` from `float64`: truncation toward zero. -/
def truncQ (q : ℚ) : ℤ := if 0 ≤ q then ⌊q⌋ else ⌈q⌉

/-! ## Quota translation (`bandwidthUpdates`, lantern.go:194-220) -/

/-- A quota sample from the bandwidth collaborator (both fields `int64`). -/
structure Quota where
  MiBAllowed : ℤ
  MiBUsed : ℤ
deriving DecidableEq

/-- The pair handed to `user.BandwidthUpdate(percent, remaining)`. -/
structure BandwidthSignal where
  percent : ℤ
  remainingMiB : ℤ
deriving DecidableEq

/-- One iteration of the receive loop in `bandwidthUpdates`
(lantern.go:196-218).  `none` models a discarded sample (a `continue` with no
call to the sink); `some s` models a call `user.BandwidthUpdate`.
The percent in the final branch is
`int(100 * (float64(quota.MiBUsed) / float64(quota.MiBAllowed)))`. -/
def translateQuota : Option Quota → Option BandwidthSignal
  | none => none
  | some quota =>
    if quota.MiBAllowed < 0 ∨ 50000000 < quota.MiBAllowed then none
    else if quota.MiBAllowed ≤ quota.MiBUsed then some ⟨100, 0⟩
    else some ⟨truncQ (fl (100 * fl (fl (quota.MiBUsed : ℚ) / fl (quota.MiBAllowed : ℚ)))),
               quota.MiBAllowed - quota.MiBUsed⟩

/-- The translation as the spec states it (§4.2): `percent` is the exact
integer `⌊100·MiBUsed/MiBAllowed⌋`, not the float64 computation.  Kept only
to compare against `translateQuota`. -/
def specTranslateQuota : Option Quota → Option BandwidthSignal
  | none => none
  | some quota =>
    if quota.MiBAllowed < 0 ∨ 50000000 < quota.MiBAllowed then none
    else if quota.MiBAllowed ≤ quota.MiBUsed then some ⟨100, 0⟩
    else some ⟨⌊(100 * quota.MiBUsed : ℚ) / (quota.MiBAllowed : ℚ)⌋,
               quota.MiBAllowed - quota.MiBUsed⟩

/-! ## Start readiness waits (lantern.go:110-130) -/

/-- Information about the started Lantern (lantern.go:83-86). -/
structure StartResult where
  HTTPAddr : String
  SOCKS5Addr : String
deriving DecidableEq

/-- The two `fmt.Errorf` failures `Start` can return (lantern.go:121,127). -/
inductive StartErr
  | httpTimeout
  | socksTimeout
deriving DecidableEq

/-- One readiness signal of the external engine: the absolute time (ms) at
which the listener binds, together with its address, or `none` if it never
binds. -/
structure Env where
  httpReady : Option (ℤ × String)
  socksReady : Option (ℤ × String)

/-- Idealized semantics of `client.Addr` / `client.Socks5Addr` (a one-shot
eventually-value awaited with a bounded timeout), called at absolute time
`now` with a window of `timeout` ms.  The value is obtained iff it is
available by `now + timeout`; the second component is the absolute time at
which the call returns: a successful wait returns as soon as the value is
there, a failed wait returns once the window has elapsed — immediately when
the window is non-positive, so an exhausted window never blocks. -/
def waitAddr (ready : Option (ℤ × String)) (now timeout : ℤ) : Option String × ℤ :=
  match ready with
  | some (r, v) => if r ≤ now + timeout then (some v, max now r) else (none, now + max timeout 0)
  | none => (none, now + max timeout 0)

/-- Trace of one `Start` call: the outcome plus the bookkeeping that the
claims are about — which budget each wait received, whether the SOCKS wait
ran at all, and when the call returns. -/
structure StartTrace where
  result : Option StartResult
  err : Option StartErr
  socksAttempted : Bool
  httpAllotment : ℤ
  socksAllotment : Option ℤ
  returnTime : ℤ
deriving DecidableEq

/-- `Start` (lantern.go:110-130), begun at absolute time `t0` with budget
`timeoutMillis`: `start := time.Now()`; await the HTTP address with the full
budget, failing with the HTTP timeout error if it does not arrive;
`elapsed := time.Now().Sub(start)`; await the SOCKS address with
`timeoutMillis − elapsed`; return both addresses, or the SOCKS timeout
error.  (The `appdir.SetHomeDir` call and the `startOnce` launch of the
background `run` goroutine touch process state that these claims do not
mention, so they are not modelled.) -/
def Start (env : Env) (t0 timeoutMillis : ℤ) : StartTrace :=
  match waitAddr env.httpReady t0 timeoutMillis with
  | (none, t1) => ⟨none, some .httpTimeout, false, timeoutMillis, none, t1⟩
  | (some addr, t1) =>
    let elapsed := t1 - t0
    match waitAddr env.socksReady t1 (timeoutMillis - elapsed) with
    | (none, t2) =>
      ⟨none, some .socksTimeout, true, timeoutMillis, some (timeoutMillis - elapsed), t2⟩
    | (some socksAddr, t2) =>
      ⟨some ⟨addr, socksAddr⟩, none, true, timeoutMillis, some (timeoutMillis - elapsed), t2⟩

/-- Whether a readiness value is available by absolute time `t`. -/
def readyBy (ready : Option (ℤ × String)) (t : ℤ) : Bool :=
  match ready with
  | none => false
  | some (r, _) => r ≤ t

/-! ## run: config-directory creation (lantern.go:149-163) -/

/-- Outcome of `os.MkdirAll(configDir, 0755)`: success (`nil` error), an
error for which `os.IsExist` holds, or any other error. -/
inductive MkdirResult
  | ok
  | errExist
  | errOther
deriving DecidableEq

/-- `os.IsExist(err)` on the `os.MkdirAll` outcome (false on a nil error). -/
def isExist : MkdirResult → Bool
  | .errExist => true
  | _ => false

/-- lantern.go:153-157: `run` logs and returns early iff `os.IsExist(err)`
holds for the `os.MkdirAll` error.  This function is `true` iff `run`
proceeds to `logging.EnableFileLogging` and the rest of initialization. -/
def runProceedsPastMkdir (err : MkdirResult) : Bool :=
  if isExist err then false else true

/-- The mkdir policy as claim C3 and spec §4.1 state it: initialization
proceeds when creation succeeds or fails only because the directory already
exists, and aborts on any other failure.  Kept only to compare with
`runProceedsPastMkdir`. -/
def specProceedsPastMkdir : MkdirResult → Bool
  | .ok => true
  | .errExist => true
  | .errOther => false

/-! ## Survey resolution (lantern.go:236-300) -/

/-- `SurveyInfo` (lantern.go:73-80). -/
structure SurveyInfo where
  Enabled : Bool
  Campaign : String
  Url : String
  Message : String
  Thanks : String
  Button : String
deriving DecidableEq

/-- Abstract `*json.RawMessage` appearing as a locale-map entry: the code
only ever passes it to `json.Unmarshal` into a `SurveyInfo`, so it is
modelled by the outcome of that call (`.error` = malformed entry). -/
structure RawMessage where
  unmarshalSurveyInfo : Except String SurveyInfo

/-- The error classes of the survey pipeline (spec §7): transport failures
and JSON unmarshal failures. -/
inductive SurveyErr
  | fetchError (msg : String)
  | parseError (msg : String)
deriving DecidableEq

/-- lantern.go:35. -/
def defaultLocale : String := "en-US"

/-- `extractUrl` (lantern.go:236-253): exact-key hit parses the entry and
returns its url or the parse error; a missing key falls back to the default
locale unless the request already is the default; otherwise no survey and no
error.  The Go map `map[string]*json.RawMessage` is modelled by its lookup
function. -/
def extractUrl (surveys : String → Option RawMessage) (locale : String) :
    String × Option SurveyErr :=
  match surveys locale with
  | some val =>
    match val.unmarshalSurveyInfo with
    | .error e => ("", some (.parseError e))
    | .ok survey => (survey.Url, none)
  | none =>
    if h : locale ≠ defaultLocale then extractUrl surveys defaultLocale
    else ("", none)
termination_by (if locale = defaultLocale then 0 else 1)
decreasing_by simp [h]

/-- Fuel-indexed unfolding of `extractUrl` (`none` = fuel exhausted before a
base case), used to state that the recursion depth never exceeds two. -/
def extractUrlFuel : ℕ → (String → Option RawMessage) → String →
    Option (String × Option SurveyErr)
  | 0, _, _ => none
  | fuel+1, surveys, locale =>
    match surveys locale with
    | some val =>
      match val.unmarshalSurveyInfo with
      | .error e => some ("", some (.parseError e))
      | .ok survey => some (survey.Url, none)
    | none =>
      if locale ≠ defaultLocale then extractUrlFuel fuel surveys defaultLocale
      else some ("", none)

/-- Abstract `*json.RawMessage` standing for `surveyResp["survey"]`: the code
only ever passes it to `json.Unmarshal` into a locale map. -/
structure RawSurveyMap where
  unmarshalLocaleMap : Except String (String → Option RawMessage)

/-- The effect environment of `surveyRequest` (lantern.go:255-300): the
outcomes of `http.NewRequest`, `httpClient.Do`, `ioutil.ReadAll` and of the
outer `json.Unmarshal` into `map[string]*json.RawMessage`.  The outer map is
modelled by its lookup function; `none` stands for a nil `*json.RawMessage`,
i.e. an absent key or a JSON null value. -/
structure SurveyWorld where
  newRequest : Except String Unit
  doRequest : Except String Unit
  readAll : Except String Unit
  unmarshalOuter : Except String (String → Option RawSurveyMap)

/-- `surveyRequest` (lantern.go:255-300): request construction, fetch and
read (transport errors), outer unmarshal (parse error), the
`surveyResp["survey"] != nil` guard (nil yields `("", nil)`), inner
unmarshal (parse error), underscore-to-hyphen locale normalization, then
`extractUrl`. -/
def surveyRequest (w : SurveyWorld) (locale : String) : String × Option SurveyErr :=
  match w.newRequest with
  | .error e => ("", some (.fetchError e))
  | .ok _ =>
    match w.doRequest with
    | .error e => ("", some (.fetchError e))
    | .ok _ =>
      match w.readAll with
      | .error e => ("", some (.fetchError e))
      | .ok _ =>
        match w.unmarshalOuter with
        | .error e => ("", some (.parseError e))
        | .ok surveyResp =>
          match surveyResp "survey" with
          | some raw =>
            match raw.unmarshalLocaleMap with
            | .error e => ("", some (.parseError e))
            | .ok surveys => extractUrl surveys (locale.replace "_" "-")
          | none => ("", none)

/-! ## Sample data for concrete instantiations -/

/-- A survey entry that unmarshals successfully. -/
def sampleInfo : SurveyInfo := ⟨true, "camp", "http://survey.example", "msg", "thanks", "okbtn"⟩

/-- A raw locale-map entry whose `json.Unmarshal` succeeds. -/
def sampleRaw : RawMessage := ⟨.ok sampleInfo⟩

/-- A raw locale-map entry whose `json.Unmarshal` fails. -/
def sampleBad : RawMessage := ⟨.error "unexpected end of JSON input"⟩

/-- A locale map containing only the default locale. -/
def enOnlyMap : String → Option RawMessage :=
  fun l => if l = "en-US" then some sampleRaw else none

/-- The empty locale map. -/
def emptyMap : String → Option RawMessage := fun _ => none

/-- A locale map with a malformed entry at `de-DE` and a good entry at the
default locale. -/
def mixedMap : String → Option RawMessage :=
  fun l => if l = "de-DE" then some sampleBad else if l = "en-US" then some sampleRaw else none

/-- A survey world in which every transport step and the outer unmarshal
succeed but the outer document has no `survey` key. -/
def okWorld : SurveyWorld := ⟨.ok (), .ok (), .ok (), .ok (fun _ => none)⟩

end Lantern

namespace Lantern

/-! ## Basic facts about the binary64 model -/

theorem rne_le (q : ℚ) : (rne q : ℚ) ≤ q + 1/2 := by
  have h1 : (⌊q⌋ : ℚ) ≤ q := Int.floor_le q
  have h2 : q < ⌊q⌋ + 1 := Int.lt_floor_add_one q
  unfold rne
  split
  · linarith
  · split
    · push_cast
      linarith
    · split <;> push_cast <;> linarith

theorem le_rne (q : ℚ) : q - 1/2 ≤ (rne q : ℚ) := by
  have h1 : (⌊q⌋ : ℚ) ≤ q := Int.floor_le q
  have h2 : q < ⌊q⌋ + 1 := Int.lt_floor_add_one q
  unfold rne
  split
  · linarith
  · split
    · push_cast
      linarith
    · split <;> push_cast <;> linarith

theorem rne_intCast (n : ℤ) : rne (n : ℚ) = n := by
  unfold rne
  rw [Int.floor_intCast]
  norm_num

/-- `Int.log 2` is characterized by the bracketing powers. -/
theorem intLog2_eq {q : ℚ} {l : ℤ} (h1 : (2 : ℚ) ^ l ≤ q) (h2 : q < 2 ^ (l + 1)) :
    Int.log 2 q = l := by
  have hq : 0 < q := lt_of_lt_of_le (zpow_pos (by norm_num) l) h1
  have hle : l ≤ Int.log 2 q := (Int.zpow_le_iff_le_log (by norm_num) hq).mp (by exact_mod_cast h1)
  have hlt : Int.log 2 q < l + 1 := (Int.lt_zpow_iff_log_lt (by norm_num) hq).mp (by exact_mod_cast h2)
  omega

/-- Evaluation helper: `flPos` at a value bracketed by known powers of two,
with the rounded mantissa given explicitly. -/
theorem flPos_eq {q : ℚ} {l m : ℤ} (h1 : (2 : ℚ) ^ l ≤ q) (h2 : q < 2 ^ (l + 1))
    (h3 : rne (q * 2 ^ ((52 : ℤ) - l)) = m) : flPos q = m * 2 ^ (l - 52) := by
  unfold flPos
  rw [intLog2_eq h1 h2, h3]

theorem flPos_pos {q : ℚ} (hq : 0 < q) : 0 < flPos q := by
  set l := Int.log 2 q with hl
  have h1 : (2 : ℚ) ^ l ≤ q := by
    exact_mod_cast Int.zpow_log_le_self (R := ℚ) (b := 2) (by norm_num) hq
  have hp : (0 : ℚ) < 2 ^ ((52 : ℤ) - l) := zpow_pos (by norm_num) _
  have hm : (2 : ℚ) ^ (52 : ℤ) ≤ q * 2 ^ ((52 : ℤ) - l) := by
    calc (2 : ℚ) ^ (52 : ℤ) = 2 ^ l * 2 ^ ((52 : ℤ) - l) := by
          rw [← zpow_add₀ (by norm_num : (2 : ℚ) ≠ 0)]
          ring_nf
      _ ≤ q * 2 ^ ((52 : ℤ) - l) := by
          exact mul_le_mul_of_nonneg_right h1 (le_of_lt hp)
  have hr : (0 : ℚ) < (rne (q * 2 ^ ((52 : ℤ) - l)) : ℚ) := by
    have := le_rne (q * 2 ^ ((52 : ℤ) - l))
    have h52 : (1 : ℚ) ≤ (2 : ℚ) ^ (52 : ℤ) := one_le_zpow₀ (by norm_num) (by norm_num)
    linarith
  exact mul_pos hr (zpow_pos (by norm_num) _)

theorem flPos_le {q : ℚ} (hq : 0 < q) : flPos q ≤ q * (1 + 2 ^ (-53 : ℤ)) := by
  set l := Int.log 2 q with hl
  have h1 : (2 : ℚ) ^ l ≤ q := by
    exact_mod_cast Int.zpow_log_le_self (R := ℚ) (b := 2) (by norm_num) hq
  have hp : (0 : ℚ) < 2 ^ (l - (52 : ℤ)) := zpow_pos (by norm_num) _
  have hrne : (rne (q * 2 ^ ((52 : ℤ) - l)) : ℚ) ≤ q * 2 ^ ((52 : ℤ) - l) + 1/2 :=
    rne_le _
  have key : flPos q ≤ (q * 2 ^ ((52 : ℤ) - l) + 1/2) * 2 ^ (l - (52 : ℤ)) := by
    unfold flPos
    rw [← hl]
    exact mul_le_mul_of_nonneg_right hrne (le_of_lt hp)
  have hcancel : (2 : ℚ) ^ ((52 : ℤ) - l) * 2 ^ (l - (52 : ℤ)) = 1 := by
    rw [← zpow_add₀ (by norm_num : (2 : ℚ) ≠ 0)]
    ring_nf
  have hhalf : (1 : ℚ)/2 * 2 ^ (l - (52 : ℤ)) = 2 ^ (l - (53 : ℤ)) := by
    have : (1 : ℚ)/2 = 2 ^ (-1 : ℤ) := by norm_num
    rw [this, ← zpow_add₀ (by norm_num : (2 : ℚ) ≠ 0)]
    ring_nf
  have hbound : (2 : ℚ) ^ (l - (53 : ℤ)) ≤ q * 2 ^ (-53 : ℤ) := by
    calc (2 : ℚ) ^ (l - (53 : ℤ)) = 2 ^ l * 2 ^ (-53 : ℤ) := by
          rw [← zpow_add₀ (by norm_num : (2 : ℚ) ≠ 0)]
          ring_nf
      _ ≤ q * 2 ^ (-53 : ℤ) := by
          exact mul_le_mul_of_nonneg_right h1 (le_of_lt (zpow_pos (by norm_num) _))
  calc flPos q ≤ (q * 2 ^ ((52 : ℤ) - l) + 1/2) * 2 ^ (l - (52 : ℤ)) := key
    _ = q * (2 ^ ((52 : ℤ) - l) * 2 ^ (l - (52 : ℤ))) + 1/2 * 2 ^ (l - (52 : ℤ)) := by ring
    _ = q + 2 ^ (l - (53 : ℤ)) := by rw [hcancel, hhalf]; ring
    _ ≤ q + q * 2 ^ (-53 : ℤ) := by linarith
    _ = q * (1 + 2 ^ (-53 : ℤ)) := by ring

theorem fl_zero : fl 0 = 0 := rfl

theorem fl_of_pos {q : ℚ} (hq : 0 < q) : fl q = flPos q := by
  unfold fl
  rw [if_neg (ne_of_gt hq), if_pos hq]

theorem fl_neg (q : ℚ) : fl (-q) = -fl q := by
  unfold fl
  rcases lt_trichotomy q 0 with h | h | h
  · rw [if_neg (by linarith), if_pos (by linarith), if_neg (ne_of_lt h),
      if_neg (not_lt.mpr (le_of_lt h)), neg_neg]
  · subst h; norm_num
  · rw [if_neg (by linarith), if_neg (not_lt.mpr (by linarith)),
      if_neg (ne_of_gt h), if_pos h, neg_neg]

theorem fl_nonneg {q : ℚ} (hq : 0 ≤ q) : 0 ≤ fl q := by
  rcases eq_or_lt_of_le hq with h | h
  · rw [← h, fl_zero]
  · rw [fl_of_pos h]
    exact le_of_lt (flPos_pos h)

theorem fl_le {q : ℚ} (hq : 0 ≤ q) : fl q ≤ q * (1 + 2 ^ (-53 : ℤ)) := by
  rcases eq_or_lt_of_le hq with h | h
  · rw [← h, fl_zero]; norm_num
  · rw [fl_of_pos h]
    exact flPos_le h

/-- Dyadic rationals `k·2^j` with `0 < k < 2^53` are fixed points of `fl`
(they are exactly representable as doubles). -/
theorem fl_dyadic {k j : ℤ} (hk : 0 < k) (hk53 : k < 2 ^ 53) :
    fl ((k : ℚ) * 2 ^ j) = (k : ℚ) * 2 ^ j := by
  have hkq : (0 : ℚ) < (k : ℚ) := by exact_mod_cast hk
  have hq : (0 : ℚ) < (k : ℚ) * 2 ^ j := mul_pos hkq (zpow_pos (by norm_num) _)
  rw [fl_of_pos hq]
  set lk := Int.log 2 ((k : ℚ)) with hlk
  have h1k : (2 : ℚ) ^ lk ≤ (k : ℚ) :=
    Int.zpow_log_le_self (R := ℚ) (b := 2) (by norm_num) hkq
  have h2k : (k : ℚ) < 2 ^ (lk + 1) :=
    Int.lt_zpow_succ_log_self (R := ℚ) (b := 2) (by norm_num) _
  have hlknn : 0 ≤ lk := by
    rw [hlk]
    have hone : (2 : ℚ) ^ (0 : ℤ) ≤ (k : ℚ) := by
      simpa using (show (1 : ℚ) ≤ (k : ℚ) by exact_mod_cast hk)
    exact (Int.zpow_le_iff_le_log (by norm_num) hkq).mp hone
  have hlk52 : lk ≤ 52 := by
    by_contra hcon
    push_neg at hcon
    have h53 : (53 : ℤ) ≤ lk := by omega
    have : (2 : ℚ) ^ (53 : ℤ) ≤ (2 : ℚ) ^ lk :=
      zpow_le_zpow_right₀ (by norm_num) h53
    have hkk : (2 : ℚ) ^ (53 : ℤ) ≤ (k : ℚ) := le_trans this h1k
    have : ((2 : ℤ) ^ (53 : ℕ) : ℚ) ≤ (k : ℚ) := by
      convert hkk using 1
      push_cast
      rw [← zpow_natCast]
      norm_num
    have : (2 : ℤ) ^ (53 : ℕ) ≤ k := by exact_mod_cast this
    omega
  have h1 : (2 : ℚ) ^ (lk + j) ≤ (k : ℚ) * 2 ^ j := by
    rw [zpow_add₀ (by norm_num : (2 : ℚ) ≠ 0)]
    exact mul_le_mul_of_nonneg_right h1k (le_of_lt (zpow_pos (by norm_num) _))
  have h2 : (k : ℚ) * 2 ^ j < 2 ^ (lk + j + 1) := by
    have : lk + j + 1 = (lk + 1) + j := by ring
    rw [this, zpow_add₀ (by norm_num : (2 : ℚ) ≠ 0)]
    exact mul_lt_mul_of_pos_right h2k (zpow_pos (by norm_num) _)
  have hmant : ((k : ℚ) * 2 ^ j) * 2 ^ ((52 : ℤ) - (lk + j)) = ((k * 2 ^ (52 - lk).toNat : ℤ) : ℚ) := by
    push_cast
    rw [← zpow_natCast (2 : ℚ) (52 - lk).toNat, Int.toNat_of_nonneg (by omega)]
    rw [mul_assoc, ← zpow_add₀ (by norm_num : (2 : ℚ) ≠ 0)]
    ring_nf
  have h3 : rne (((k : ℚ) * 2 ^ j) * 2 ^ ((52 : ℤ) - (lk + j))) = k * 2 ^ (52 - lk).toNat := by
    rw [hmant, rne_intCast]
  rw [flPos_eq h1 h2 h3]
  push_cast
  rw [← zpow_natCast (2 : ℚ) (52 - lk).toNat, Int.toNat_of_nonneg (by omega)]
  rw [mul_assoc, ← zpow_add₀ (by norm_num : (2 : ℚ) ≠ 0)]
  ring_nf

/-- Integers of magnitude below `2^53` are fixed points of `fl`. -/
theorem fl_intCast {n : ℤ} (hn : 0 ≤ n) (hn53 : n < 2 ^ 53) : fl (n : ℚ) = n := by
  rcases eq_or_lt_of_le hn with h | h
  · rw [← h]
    norm_num [fl_zero]
  · have := fl_dyadic (j := 0) h hn53
    simpa using this

theorem truncQ_intCast (n : ℤ) : truncQ (n : ℚ) = n := by
  unfold truncQ
  split
  · exact Int.floor_intCast n
  · exact Int.ceil_intCast n

/-- Evaluation helper for `rne` in the round-down case. -/
theorem rne_eq_of {q : ℚ} {n : ℤ} (h1 : (n : ℚ) ≤ q) (h2 : q < n + 1/2) : rne q = n := by
  have hf : ⌊q⌋ = n := Int.floor_eq_iff.mpr ⟨h1, by linarith⟩
  unfold rne
  rw [hf, if_pos (by linarith)]

/-! ## Concrete evaluations of the quota translation -/

theorem translate_100_100 : translateQuota (some ⟨100, 100⟩) = some ⟨100, 0⟩ := by
  simp only [translateQuota]
  norm_num

theorem fl_fifty : fl ((50 : ℚ)) = 50 := by
  exact_mod_cast fl_intCast (n := 50) (by norm_num) (by norm_num)

theorem fl_twoHundred : fl ((200 : ℚ)) = 200 := by
  exact_mod_cast fl_intCast (n := 200) (by norm_num) (by norm_num)

theorem fl_hundred : fl ((100 : ℚ)) = 100 := by
  exact_mod_cast fl_intCast (n := 100) (by norm_num) (by norm_num)

theorem fl_twentyFive : fl ((25 : ℚ)) = 25 := by
  exact_mod_cast fl_intCast (n := 25) (by norm_num) (by norm_num)

theorem fl_twentyNine : fl ((29 : ℚ)) = 29 := by
  exact_mod_cast fl_intCast (n := 29) (by norm_num) (by norm_num)

theorem fl_one : fl ((1 : ℚ)) = 1 := by
  exact_mod_cast fl_intCast (n := 1) (by norm_num) (by norm_num)

theorem fl_quarter : fl ((1 : ℚ)/4) = (1 : ℚ)/4 := by
  have := fl_dyadic (k := 1) (j := -2) (by norm_num) (by norm_num)
  norm_num at this
  convert this using 2

theorem translate_200_50 : translateQuota (some ⟨200, 50⟩) = some ⟨25, 150⟩ := by
  have hpercent : truncQ (fl (100 * fl ((50 : ℚ) / (200 : ℚ)))) = 25 := by
    have hdiv : (50 : ℚ) / 200 = (1 : ℚ)/4 := by norm_num
    rw [hdiv, fl_quarter]
    have hprod : (100 : ℚ) * ((1 : ℚ)/4) = 25 := by norm_num
    rw [hprod, fl_twentyFive]
    exact_mod_cast truncQ_intCast 25
  simp only [translateQuota]
  rw [if_neg (by norm_num), if_neg (by norm_num)]
  push_cast
  rw [fl_fifty, fl_twoHundred, hpercent]

theorem translate_neg : translateQuota (some ⟨100, -100⟩) = some ⟨-100, 200⟩ := by
  have hm100 : fl ((-100 : ℚ)) = -100 := by
    have := fl_neg (100 : ℚ)
    rw [fl_hundred] at this
    exact this
  have hm1 : fl ((-1 : ℚ)) = -1 := by
    have := fl_neg (1 : ℚ)
    rw [fl_one] at this
    exact this
  have hpercent : truncQ (fl (100 * fl ((-100 : ℚ) / (100 : ℚ)))) = -100 := by
    have hdiv : (-100 : ℚ) / 100 = (-1 : ℚ) := by norm_num
    rw [hdiv, hm1]
    have hprod : (100 : ℚ) * (-1 : ℚ) = -100 := by norm_num
    rw [hprod, hm100]
    exact_mod_cast truncQ_intCast (-100)
  simp only [translateQuota]
  rw [if_neg (by norm_num), if_neg (by norm_num)]
  push_cast
  rw [fl_hundred, hm100, hpercent]

/-- The float64 computation at `{MiBAllowed:100, MiBUsed:29}`:
`float64(29)/float64(100)` rounds to `0.29·(1 - δ)`, and multiplying by `100`
rounds down again, landing strictly below `29`; truncation yields `28`,
although `⌊100·29/100⌋ = 29`. -/
theorem translate_100_29 : translateQuota (some ⟨100, 29⟩) = some ⟨28, 71⟩ := by
  -- fl(29/100) = 5224175567749775 / 2^54
  have hratio : fl ((29 : ℚ)/100) = (5224175567749775 : ℚ) / 18014398509481984 := by
    rw [fl_of_pos (by norm_num)]
    have e1 : ((2 : ℚ)) ^ (-2 : ℤ) ≤ (29 : ℚ)/100 := by
      norm_num [zpow_neg]
    have e2 : (29 : ℚ)/100 < (2 : ℚ) ^ ((-2 : ℤ) + 1) := by
      norm_num [zpow_neg]
    have e3 : rne (((29 : ℚ)/100) * 2 ^ ((52 : ℤ) - (-2 : ℤ))) = 5224175567749775 := by
      have harg : ((29 : ℚ)/100) * 2 ^ ((52 : ℤ) - (-2 : ℤ)) =
          (522417556774977536 : ℚ) / 100 := by
        have h54 : ((52 : ℤ) - (-2 : ℤ)) = ((54 : ℕ) : ℤ) := by norm_num
        rw [h54, zpow_natCast]
        norm_num
      rw [harg]
      exact rne_eq_of (by norm_num) (by norm_num)
    rw [flPos_eq e1 e2 e3]
    have hexp : ((-2 : ℤ) - 52) = -((54 : ℕ) : ℤ) := by norm_num
    rw [hexp, zpow_neg, zpow_natCast]
    norm_num
  -- fl(100 * fl(29/100)) = 8162774324609023 / 2^48
  have hprod : fl (100 * ((5224175567749775 : ℚ) / 18014398509481984)) =
      (8162774324609023 : ℚ) / 281474976710656 := by
    rw [fl_of_pos (by norm_num)]
    have e1 : ((2 : ℚ)) ^ (4 : ℤ) ≤ 100 * ((5224175567749775 : ℚ) / 18014398509481984) := by
      norm_num
    have e2 : 100 * ((5224175567749775 : ℚ) / 18014398509481984) < (2 : ℚ) ^ ((4 : ℤ) + 1) := by
      norm_num
    have e3 : rne ((100 * ((5224175567749775 : ℚ) / 18014398509481984)) * 2 ^ ((52 : ℤ) - 4)) =
        8162774324609023 := by
      have harg : (100 * ((5224175567749775 : ℚ) / 18014398509481984)) * 2 ^ ((52 : ℤ) - 4) =
          (522417556774977500 : ℚ) / 64 := by
        have h48 : ((52 : ℤ) - 4) = ((48 : ℕ) : ℤ) := by norm_num
        rw [h48, zpow_natCast]
        norm_num
      rw [harg]
      exact rne_eq_of (by norm_num) (by norm_num)
    rw [flPos_eq e1 e2 e3]
    have hexp : ((4 : ℤ) - 52) = -((48 : ℕ) : ℤ) := by norm_num
    rw [hexp, zpow_neg, zpow_natCast]
    norm_num
  have htr : truncQ ((8162774324609023 : ℚ) / 281474976710656) = 28 := by
    unfold truncQ
    rw [if_pos (by norm_num)]
    apply Int.floor_eq_iff.mpr
    norm_num
  have hpercent : truncQ (fl (100 * fl ((29 : ℚ) / (100 : ℚ)))) = 28 := by
    rw [hratio, hprod, htr]
  simp only [translateQuota]
  rw [if_neg (by norm_num), if_neg (by norm_num)]
  push_cast
  rw [fl_twentyNine, fl_hundred, hpercent]

theorem translate_max : translateQuota (some ⟨50000000, 0⟩) = some ⟨0, 50000000⟩ := by
  simp only [translateQuota]
  rw [if_neg (by norm_num), if_neg (by norm_num)]
  push_cast
  rw [fl_zero, zero_div, fl_zero, mul_zero, fl_zero]
  norm_num [truncQ]

/-- In the non-saturated branch with a nonnegative usage, the float64 percent
lands in `[0, 100]`. -/
theorem percent_in_range {u a : ℤ} (hu : 0 ≤ u) (hua : u < a) (ha : a ≤ 50000000) :
    0 ≤ truncQ (fl (100 * fl (fl (u : ℚ) / fl (a : ℚ)))) ∧
    truncQ (fl (100 * fl (fl (u : ℚ) / fl (a : ℚ)))) ≤ 100 := by
  have hu53 : u < 2 ^ 53 := lt_of_lt_of_le hua (le_trans ha (by norm_num))
  have ha53 : a < 2 ^ 53 := lt_of_le_of_lt ha (by norm_num)
  have hfa : fl ((a : ℚ)) = (a : ℚ) := fl_intCast (le_of_lt (lt_of_le_of_lt hu hua)) ha53
  have hfu : fl ((u : ℚ)) = (u : ℚ) := fl_intCast hu hu53
  rw [hfa, hfu]
  have haq : (0 : ℚ) < (a : ℚ) := by exact_mod_cast lt_of_le_of_lt hu hua
  have huq : (0 : ℚ) ≤ (u : ℚ) := by exact_mod_cast hu
  set r : ℚ := (u : ℚ) / (a : ℚ) with hrdef
  have hrnn : 0 ≤ r := div_nonneg huq (le_of_lt haq)
  have hr1 : r ≤ 1 := by
    rw [hrdef, div_le_one haq]
    exact_mod_cast le_of_lt hua
  have heps : (2 : ℚ) ^ (-53 : ℤ) = 1 / 9007199254740992 := by
    rw [show (-53 : ℤ) = -((53 : ℕ) : ℤ) by norm_num, zpow_neg, zpow_natCast]
    norm_num
  have hflr0 : 0 ≤ fl r := fl_nonneg hrnn
  have hflr : fl r ≤ 1 + 2 ^ (-53 : ℤ) := by
    have h2 := fl_le hrnn
    rw [heps] at h2 ⊢
    nlinarith
  set p : ℚ := 100 * fl r with hpdef
  have hp0 : 0 ≤ p := by
    rw [hpdef]
    exact mul_nonneg (by norm_num) hflr0
  have hfp0 : 0 ≤ fl p := fl_nonneg hp0
  have hfp : fl p < 101 := by
    have h2 := fl_le hp0
    have hpb : p ≤ 100 * (1 + 2 ^ (-53 : ℤ)) := by
      rw [hpdef]
      nlinarith
    rw [heps] at h2 hpb
    nlinarith
  constructor
  · unfold truncQ
    rw [if_pos hfp0]
    exact Int.floor_nonneg.mpr hfp0
  · unfold truncQ
    rw [if_pos hfp0]
    have hlt : ⌊fl p⌋ < 101 := Int.floor_lt.mpr (by exact_mod_cast hfp)
    omega

/-! ## Unfolding lemmas for extractUrl -/

theorem extractUrl_hit_ok {s : String → Option RawMessage} {l : String} {val : RawMessage}
    {info : SurveyInfo} (h1 : s l = some val) (h2 : val.unmarshalSurveyInfo = .ok info) :
    extractUrl s l = (info.Url, none) := by
  rw [extractUrl]
  simp [h1, h2]

theorem extractUrl_hit_err {s : String → Option RawMessage} {l : String} {val : RawMessage}
    {e : String} (h1 : s l = some val) (h2 : val.unmarshalSurveyInfo = .error e) :
    extractUrl s l = ("", some (.parseError e)) := by
  rw [extractUrl]
  simp [h1, h2]

theorem extractUrl_miss_ne {s : String → Option RawMessage} {l : String}
    (h1 : s l = none) (h2 : l ≠ defaultLocale) :
    extractUrl s l = extractUrl s defaultLocale := by
  rw [extractUrl]
  simp [h1, h2]

theorem extractUrl_default_miss {s : String → Option RawMessage}
    (h : s defaultLocale = none) : extractUrl s defaultLocale = ("", none) := by
  rw [extractUrl]
  simp [h]

/-- Any parse error escaping `extractUrl` originates from the unmarshal of a
present locale-map entry. -/
theorem extractUrl_parseError {s : String → Option RawMessage} {l : String} {e : String}
    (h : (extractUrl s l).2 = some (.parseError e)) :
    ∃ loc val, s loc = some val ∧ val.unmarshalSurveyInfo = .error e := by
  rcases hm : s l with _ | val
  · by_cases hd : l = defaultLocale
    · subst hd
      rw [extractUrl_default_miss hm] at h
      simp at h
    · rw [extractUrl_miss_ne hm hd] at h
      rcases hm2 : s defaultLocale with _ | val2
      · rw [extractUrl_default_miss hm2] at h
        simp at h
      · rcases hp2 : val2.unmarshalSurveyInfo with e2 | info2
        · rw [extractUrl_hit_err hm2 hp2] at h
          simp only [Option.some.injEq, SurveyErr.parseError.injEq] at h
          exact ⟨defaultLocale, val2, hm2, by rw [hp2, h]⟩
        · rw [extractUrl_hit_ok hm2 hp2] at h
          simp at h
  · rcases hp : val.unmarshalSurveyInfo with e2 | info
    · rw [extractUrl_hit_err hm hp] at h
      simp only [Option.some.injEq, SurveyErr.parseError.injEq] at h
      exact ⟨l, val, hm, by rw [hp, h]⟩
    · rw [extractUrl_hit_ok hm hp] at h
      simp at h

/-! ## Unfolding lemmas for Start -/

theorem Start_http_fail_none {env : Env} (t0 T : ℤ) (h : env.httpReady = none) :
    Start env t0 T = ⟨none, some .httpTimeout, false, T, none, t0 + max T 0⟩ := by
  unfold Start waitAddr
  rw [h]

theorem Start_http_fail_late {env : Env} {t0 T r : ℤ} {v : String}
    (h : env.httpReady = some (r, v)) (hr : ¬r ≤ t0 + T) :
    Start env t0 T = ⟨none, some .httpTimeout, false, T, none, t0 + max T 0⟩ := by
  unfold Start waitAddr
  rw [h]
  simp [hr]

theorem Start_http_ok_socks_none {env : Env} {t0 T r : ℤ} {v : String}
    (h : env.httpReady = some (r, v)) (hr : r ≤ t0 + T) (hs : env.socksReady = none) :
    Start env t0 T = ⟨none, some .socksTimeout, true, T, some (T - (max t0 r - t0)),
      max t0 r + max (T - (max t0 r - t0)) 0⟩ := by
  unfold Start waitAddr
  rw [h, hs]
  simp [hr]

theorem Start_http_ok_socks_late {env : Env} {t0 T r r2 : ℤ} {v v2 : String}
    (h : env.httpReady = some (r, v)) (hr : r ≤ t0 + T) (hs : env.socksReady = some (r2, v2))
    (hr2 : ¬r2 ≤ max t0 r + (T - (max t0 r - t0))) :
    Start env t0 T = ⟨none, some .socksTimeout, true, T, some (T - (max t0 r - t0)),
      max t0 r + max (T - (max t0 r - t0)) 0⟩ := by
  unfold Start waitAddr
  rw [h, hs]
  simp [hr, hr2]

theorem Start_both_ok {env : Env} {t0 T r r2 : ℤ} {v v2 : String}
    (h : env.httpReady = some (r, v)) (hr : r ≤ t0 + T) (hs : env.socksReady = some (r2, v2))
    (hr2 : r2 ≤ max t0 r + (T - (max t0 r - t0))) :
    Start env t0 T = ⟨some ⟨v, v2⟩, none, true, T, some (T - (max t0 r - t0)),
      max (max t0 r) r2⟩ := by
  unfold Start waitAddr
  rw [h, hs]
  simp [hr, hr2]

/-! ## Claim theorems -/

/-- C1: for every `Start` call with a (nonnegative) timeout budget `T`, the
HTTP wait receives the full budget `T`; whenever the SOCKS wait runs, its
allotment is `T` minus the elapsed time of the HTTP wait and is never
negative; and the call never returns later than `t0 + T`, so an exhausted
budget makes the second wait fail immediately instead of blocking. -/
theorem lantern_c1_budget_split (env : Env) (t0 T : ℤ) (hT : 0 ≤ T) :
    (Start env t0 T).httpAllotment = T ∧
    (∀ a : ℤ, (Start env t0 T).socksAllotment = some a →
      0 ≤ a ∧ ∃ e : ℤ, 0 ≤ e ∧ e ≤ T ∧ a = T - e) ∧
    (Start env t0 T).returnTime ≤ t0 + T := by
  rcases henv : env.httpReady with _ | ⟨r, v⟩
  · rw [Start_http_fail_none t0 T henv]
    refine ⟨rfl, ?_, ?_⟩
    · intro a ha
      simp at ha
    · simp only
      omega
  · by_cases hr : r ≤ t0 + T
    · have he1 : t0 ≤ max t0 r := le_max_left t0 r
      have he2 : max t0 r ≤ t0 + T := max_le (by omega) hr
      rcases hsocks : env.socksReady with _ | ⟨r2, v2⟩
      · rw [Start_http_ok_socks_none henv hr hsocks]
        refine ⟨rfl, ?_, ?_⟩
        · intro a ha
          simp only [Option.some.injEq] at ha
          exact ⟨by omega, max t0 r - t0, by omega, by omega, by omega⟩
        · simp only
          omega
      · by_cases hr2 : r2 ≤ max t0 r + (T - (max t0 r - t0))
        · rw [Start_both_ok henv hr hsocks hr2]
          refine ⟨rfl, ?_, ?_⟩
          · intro a ha
            simp only [Option.some.injEq] at ha
            exact ⟨by omega, max t0 r - t0, by omega, by omega, by omega⟩
          · simp only
            omega
        · rw [Start_http_ok_socks_late henv hr hsocks hr2]
          refine ⟨rfl, ?_, ?_⟩
          · intro a ha
            simp only [Option.some.injEq] at ha
            exact ⟨by omega, max t0 r - t0, by omega, by omega, by omega⟩
          · simp only
            omega
    · rw [Start_http_fail_late henv hr]
      refine ⟨rfl, ?_, ?_⟩
      · intro a ha
        simp at ha
      · simp only
        omega

theorem lantern_c1_witness :
    0 ≤ (5 : ℤ) ∧ (∃ e : ℤ, 0 ≤ e ∧ e ≤ 10 ∧ (5 : ℤ) = 10 - e) ∧
    (Start ⟨some (5, "h"), some (7, "s")⟩ 0 10).httpAllotment = 10 ∧
    (Start ⟨some (5, "h"), some (7, "s")⟩ 0 10).returnTime ≤ 0 + 10 :=
  ⟨((lantern_c1_budget_split ⟨some (5, "h"), some (7, "s")⟩ 0 10 (by norm_num)).2.1 5
      (by decide)).1,
   ((lantern_c1_budget_split ⟨some (5, "h"), some (7, "s")⟩ 0 10 (by norm_num)).2.1 5
      (by decide)).2,
   (lantern_c1_budget_split ⟨some (5, "h"), some (7, "s")⟩ 0 10 (by norm_num)).1,
   (lantern_c1_budget_split ⟨some (5, "h"), some (7, "s")⟩ 0 10 (by norm_num)).2.2⟩

/-- C2: a `StartResult` is produced only when both addresses became ready
within the budget; when the HTTP wait fails there is no result, the HTTP
timeout error is returned before the budget elapses, and the SOCKS wait is
never attempted; and a result is returned exactly when no error is — never a
partial result alongside an error. -/
theorem lantern_c2_all_or_nothing (env : Env) (t0 T : ℤ) (hT : 0 ≤ T) :
    (∀ res : StartResult, (Start env t0 T).result = some res →
      readyBy env.httpReady (t0 + T) = true ∧ readyBy env.socksReady (t0 + T) = true) ∧
    (readyBy env.httpReady (t0 + T) = false →
      (Start env t0 T).result = none ∧ (Start env t0 T).err = some .httpTimeout ∧
      (Start env t0 T).socksAttempted = false ∧ (Start env t0 T).returnTime ≤ t0 + T) ∧
    ((Start env t0 T).result = none ↔ (Start env t0 T).err ≠ none) := by
  rcases henv : env.httpReady with _ | ⟨r, v⟩
  · rw [Start_http_fail_none t0 T henv]
    refine ⟨?_, ?_, ?_⟩
    · intro res hres
      simp at hres
    · intro _
      refine ⟨rfl, rfl, rfl, ?_⟩
      simp only
      omega
    · simp
  · by_cases hr : r ≤ t0 + T
    · have he2 : max t0 r ≤ t0 + T := max_le (by omega) hr
      rcases hsocks : env.socksReady with _ | ⟨r2, v2⟩
      · rw [Start_http_ok_socks_none henv hr hsocks]
        refine ⟨?_, ?_, ?_⟩
        · intro res hres
          simp at hres
        · intro hb
          simp [readyBy] at hb
          omega
        · simp
      · by_cases hr2 : r2 ≤ max t0 r + (T - (max t0 r - t0))
        · rw [Start_both_ok henv hr hsocks hr2]
          refine ⟨?_, ?_, ?_⟩
          · intro res hres
            constructor
            · simp [readyBy]
              omega
            · simp [readyBy]
              omega
          · intro hb
            simp [readyBy] at hb
            omega
          · simp
        · rw [Start_http_ok_socks_late henv hr hsocks hr2]
          refine ⟨?_, ?_, ?_⟩
          · intro res hres
            simp at hres
          · intro hb
            simp [readyBy] at hb
            omega
          · simp
    · rw [Start_http_fail_late henv hr]
      refine ⟨?_, ?_, ?_⟩
      · intro res hres
        simp at hres
      · intro _
        refine ⟨rfl, rfl, rfl, ?_⟩
        simp only
        omega
      · simp

theorem lantern_c2_witness :
    (Start ⟨none, some (7, "s")⟩ 0 10).result = none ∧
    (Start ⟨none, some (7, "s")⟩ 0 10).err = some .httpTimeout ∧
    (Start ⟨none, some (7, "s")⟩ 0 10).socksAttempted = false ∧
    (Start ⟨none, some (7, "s")⟩ 0 10).returnTime ≤ 0 + 10 :=
  (lantern_c2_all_or_nothing ⟨none, some (7, "s")⟩ 0 10 (by norm_num)).2.1 (by decide)

/-- C3: the claim says `run` aborts exactly on mkdir failures other than
"already exists" and proceeds on success or an already-exists failure.  The
code has the test inverted (`if os.IsExist(err) { return }`): it proceeds on
every failure that is NOT an already-exists error and aborts on the
already-exists one, so the code contradicts the claimed (and clearly
intended) policy on both error outcomes. -/
theorem lantern_c3_mkdir_inverted :
    runProceedsPastMkdir .errOther = true ∧
    runProceedsPastMkdir .errExist = false ∧
    runProceedsPastMkdir .ok = true ∧
    specProceedsPastMkdir .errOther = false ∧
    specProceedsPastMkdir .errExist = true ∧
    runProceedsPastMkdir .errOther ≠ specProceedsPastMkdir .errOther ∧
    runProceedsPastMkdir .errExist ≠ specProceedsPastMkdir .errExist := by
  decide

/-- C4 (counterexample): the sample `{MiBAllowed:100, MiBUsed:-100}` is not
discarded, and its emitted signal has `percent = -100`, outside `[0,100]` —
the claimed invariant fails for negative `MiBUsed`. -/
theorem lantern_c4_counterexample :
    translateQuota (some ⟨100, -100⟩) = some ⟨-100, 200⟩ ∧ ¬(0 ≤ (-100 : ℤ)) :=
  ⟨translate_neg, by norm_num⟩

/-- C4 (amended): for every quota sample that produces a bandwidth signal
and has `MiBUsed ≥ 0`, the signal has `percent ∈ [0,100]` and
`remainingMiB ≥ 0`. -/
theorem lantern_c4_amended (q : Quota) (hu : 0 ≤ q.MiBUsed) (s : BandwidthSignal)
    (hs : translateQuota (some q) = some s) :
    0 ≤ s.percent ∧ s.percent ≤ 100 ∧ 0 ≤ s.remainingMiB := by
  simp only [translateQuota] at hs
  by_cases h1 : q.MiBAllowed < 0 ∨ 50000000 < q.MiBAllowed
  · rw [if_pos h1] at hs
    exact absurd hs (by simp)
  · rw [if_neg h1] at hs
    push_neg at h1
    obtain ⟨ha0, ha5⟩ := h1
    by_cases h2 : q.MiBAllowed ≤ q.MiBUsed
    · rw [if_pos h2] at hs
      injection hs with hs2
      subst hs2
      refine ⟨by norm_num, by norm_num, by norm_num⟩
    · rw [if_neg h2] at hs
      push_neg at h2
      injection hs with hs2
      subst hs2
      exact ⟨(percent_in_range hu h2 ha5).1, (percent_in_range hu h2 ha5).2, by
        simp only
        omega⟩

theorem lantern_c4_amended_witness :
    0 ≤ (100 : ℤ) ∧
    (0 ≤ (100 : ℤ) ∧ (100 : ℤ) ≤ 100 ∧ 0 ≤ (0 : ℤ)) :=
  ⟨by norm_num, lantern_c4_amended ⟨100, 100⟩ (by norm_num) ⟨100, 0⟩ (by decide)⟩

/-- C5 (counterexample): at `{MiBAllowed:100, MiBUsed:29}` the code emits
`percent = 28` (float64 rounding truncates `100*(29.0/100.0)` to `28`),
while the claimed exact integer arithmetic yields
`⌊100·29/100⌋ = 29`. -/
theorem lantern_c5_counterexample :
    translateQuota (some ⟨100, 29⟩) = some ⟨28, 71⟩ ∧
    specTranslateQuota (some ⟨100, 29⟩) = some ⟨29, 71⟩ ∧ (28 : ℤ) ≠ 29 := by
  refine ⟨translate_100_29, ?_, by norm_num⟩
  norm_num [specTranslateQuota, Int.floor_eq_iff]

/-- C5 (amended): in the saturated branch (`MiBUsed ≥ MiBAllowed`) the signal
is `(100, 0)`; in the non-saturated branch with `MiBUsed ≥ 0` the remaining
amount is exactly `MiBAllowed − MiBUsed` and the percent — computed by the
code in float64, not exact integer arithmetic — lies in `[0,100]`; the
spec's two examples hold. -/
theorem lantern_c5_amended :
    (∀ q : Quota, 0 ≤ q.MiBAllowed → q.MiBAllowed ≤ 50000000 →
      q.MiBAllowed ≤ q.MiBUsed → translateQuota (some q) = some ⟨100, 0⟩) ∧
    (∀ q : Quota, 0 ≤ q.MiBUsed → q.MiBUsed < q.MiBAllowed → q.MiBAllowed ≤ 50000000 →
      ∃ p : ℤ, translateQuota (some q) = some ⟨p, q.MiBAllowed - q.MiBUsed⟩ ∧
        0 ≤ p ∧ p ≤ 100) ∧
    translateQuota (some ⟨100, 100⟩) = some ⟨100, 0⟩ ∧
    translateQuota (some ⟨200, 50⟩) = some ⟨25, 150⟩ := by
  refine ⟨?_, ?_, translate_100_100, translate_200_50⟩
  · intro q h0 h5 hge
    simp only [translateQuota]
    rw [if_neg (by omega), if_pos hge]
  · intro q hu hlt h5
    refine ⟨truncQ (fl (100 * fl (fl (q.MiBUsed : ℚ) / fl (q.MiBAllowed : ℚ)))), ?_,
      (percent_in_range hu hlt h5).1, (percent_in_range hu hlt h5).2⟩
    simp only [translateQuota]
    rw [if_neg (by omega), if_neg (by omega)]

theorem lantern_c5_amended_witness :
    translateQuota (some ⟨300, 300⟩) = some ⟨100, 0⟩ :=
  lantern_c5_amended.1 ⟨300, 300⟩ (by norm_num) (by norm_num) (by norm_num)

/-- C6: a quota sample is discarded (no sink call) exactly when it is nil,
or `MiBAllowed < 0`, or `MiBAllowed > 50,000,000`; `-1` and `50,000,001` are
discarded while `50,000,000` is not. -/
theorem lantern_c6_discard_policy :
    (∀ oq : Option Quota, translateQuota oq = none ↔
      oq = none ∨ ∃ q : Quota, oq = some q ∧
        (q.MiBAllowed < 0 ∨ 50000000 < q.MiBAllowed)) ∧
    translateQuota (some ⟨-1, 0⟩) = none ∧
    translateQuota (some ⟨50000001, 0⟩) = none ∧
    translateQuota (some ⟨50000000, 0⟩) ≠ none := by
  refine ⟨?_, by norm_num [translateQuota], by norm_num [translateQuota], ?_⟩
  · intro oq
    cases oq with
    | none => simp [translateQuota]
    | some q =>
      simp only [translateQuota]
      by_cases hc : q.MiBAllowed < 0 ∨ 50000000 < q.MiBAllowed
      · rw [if_pos hc]
        constructor
        · intro _
          exact Or.inr ⟨q, rfl, hc⟩
        · intro _
          rfl
      · rw [if_neg hc]
        constructor
        · intro h
          split at h <;> simp at h
        · rintro (h | ⟨q2, heq, hc2⟩)
          · exact absurd h (by simp)
          · injection heq with heq2
            subst heq2
            exact absurd hc2 hc
  · rw [translate_max]
    simp

/-- C7: locale resolution returns the entry's url on an exact-key hit whose
value parses; a missing key falls back (once) to the default locale `en-US`;
a missing default key resolves to `("", nil)`; and the two concrete
scenarios of the claim hold. -/
theorem lantern_c7_locale_fallback :
    (∀ (s : String → Option RawMessage) (l : String) (val : RawMessage) (info : SurveyInfo),
      s l = some val → val.unmarshalSurveyInfo = .ok info →
      extractUrl s l = (info.Url, none)) ∧
    (∀ (s : String → Option RawMessage) (l : String),
      s l = none → l ≠ defaultLocale → extractUrl s l = extractUrl s defaultLocale) ∧
    (∀ s : String → Option RawMessage,
      s defaultLocale = none → extractUrl s defaultLocale = ("", none)) ∧
    extractUrl enOnlyMap "de-DE" = (sampleInfo.Url, none) ∧
    extractUrl emptyMap "en-US" = ("", none) := by
  refine ⟨fun s l val info h1 h2 => extractUrl_hit_ok h1 h2,
          fun s l h1 h2 => extractUrl_miss_ne h1 h2,
          fun s h => extractUrl_default_miss h, ?_, ?_⟩
  · rw [extractUrl_miss_ne (by simp [enOnlyMap]) (by simp [defaultLocale])]
    exact extractUrl_hit_ok (show enOnlyMap defaultLocale = some sampleRaw by simp [enOnlyMap, defaultLocale]) rfl
  · show extractUrl emptyMap defaultLocale = ("", none)
    exact extractUrl_default_miss (by simp [emptyMap])

theorem lantern_c7_witness :
    enOnlyMap "de-DE" = none ∧ ("de-DE" : String) ≠ defaultLocale ∧
    extractUrl enOnlyMap "de-DE" = extractUrl enOnlyMap defaultLocale :=
  ⟨by simp [enOnlyMap], by simp [defaultLocale],
   lantern_c7_locale_fallback.2.1 enOnlyMap "de-DE" (by simp [enOnlyMap])
     (by simp [defaultLocale])⟩

/-- C8: when the exact requested locale key is present but its value fails
to parse, resolution returns the empty url with the parse error — it never
falls back to the default locale (the concrete map below has a perfectly
good default entry, yet the malformed `de-DE` entry's error is returned). -/
theorem lantern_c8_malformed_no_fallback :
    (∀ (s : String → Option RawMessage) (l : String) (val : RawMessage) (e : String),
      s l = some val → val.unmarshalSurveyInfo = .error e →
      extractUrl s l = ("", some (.parseError e))) ∧
    extractUrl mixedMap "de-DE" = ("", some (.parseError "unexpected end of JSON input")) := by
  refine ⟨fun s l val e h1 h2 => extractUrl_hit_err h1 h2, ?_⟩
  exact extractUrl_hit_err (show mixedMap "de-DE" = some sampleBad by simp [mixedMap]) rfl

theorem lantern_c8_witness :
    mixedMap "de-DE" = some sampleBad ∧
    extractUrl mixedMap "de-DE" = ("", some (.parseError "unexpected end of JSON input")) :=
  ⟨by simp [mixedMap],
   lantern_c8_malformed_no_fallback.1 mixedMap "de-DE" sampleBad
     "unexpected end of JSON input" (by simp [mixedMap]) rfl⟩

/-- C9: the locale-fallback recursion always terminates within recursion
depth two: two units of fuel always suffice to compute `extractUrl`. -/
theorem lantern_c9_depth_two :
    ∀ (s : String → Option RawMessage) (l : String),
      extractUrlFuel 2 s l = some (extractUrl s l) := by
  have base : ∀ s : String → Option RawMessage,
      extractUrlFuel 1 s defaultLocale = some (extractUrl s defaultLocale) := by
    intro s
    rcases hm : s defaultLocale with _ | val
    · rw [extractUrl_default_miss hm]
      simp [extractUrlFuel, hm]
    · rcases hp : val.unmarshalSurveyInfo with e | info
      · rw [extractUrl_hit_err hm hp]
        simp [extractUrlFuel, hm, hp]
      · rw [extractUrl_hit_ok hm hp]
        simp [extractUrlFuel, hm, hp]
  intro s l
  rcases hm : s l with _ | val
  · by_cases hd : l = defaultLocale
    · subst hd
      rw [extractUrl_default_miss hm]
      simp [extractUrlFuel, hm]
    · rw [extractUrl_miss_ne hm hd]
      have hstep : extractUrlFuel 2 s l = extractUrlFuel 1 s defaultLocale := by
        simp [extractUrlFuel, hm, hd]
      rw [hstep, base]
  · rcases hp : val.unmarshalSurveyInfo with e | info
    · rw [extractUrl_hit_err hm hp]
      simp [extractUrlFuel, hm, hp]
    · rw [extractUrl_hit_ok hm hp]
      simp [extractUrlFuel, hm, hp]

/-- C10: when transport and the outer unmarshal succeed but the outer map
has no `survey` key (or maps it to null), `surveyRequest` returns
`("", nil)` with no error; and every parse error it ever returns originates
from a failing `json.Unmarshal` — the outer document, the inner locale map,
or a present locale entry — never from a missing key. -/
theorem lantern_c10_missing_survey_key :
    (∀ (w : SurveyWorld) (locale : String) (m : String → Option RawSurveyMap),
      w.newRequest = .ok () → w.doRequest = .ok () → w.readAll = .ok () →
      w.unmarshalOuter = .ok m → m "survey" = none →
      surveyRequest w locale = ("", none)) ∧
    (∀ (w : SurveyWorld) (locale : String) (e : String),
      (surveyRequest w locale).2 = some (.parseError e) →
      w.unmarshalOuter = .error e ∨
      ∃ m raw, w.unmarshalOuter = .ok m ∧ m "survey" = some raw ∧
        (raw.unmarshalLocaleMap = .error e ∨
         ∃ surveys, raw.unmarshalLocaleMap = .ok surveys ∧
           ∃ loc val, surveys loc = some val ∧ val.unmarshalSurveyInfo = .error e)) := by
  constructor
  · intro w locale m h1 h2 h3 h4 h5
    simp [surveyRequest, h1, h2, h3, h4, h5]
  · intro w locale e h
    obtain ⟨wn, wd, wr, wo⟩ := w
    rcases wn with en | un
    · simp [surveyRequest] at h
    · rcases wd with ed | ud
      · simp [surveyRequest] at h
      · rcases wr with er | ur
        · simp [surveyRequest] at h
        · rcases wo with eo | mo
          · simp [surveyRequest] at h
            left
            rw [h]
          · rcases hsurv : mo "survey" with _ | raw
            · simp [surveyRequest, hsurv] at h
            · rcases hraw : raw.unmarshalLocaleMap with er2 | surveys
              · simp [surveyRequest, hsurv, hraw] at h
                right
                exact ⟨mo, raw, rfl, hsurv, Or.inl (by rw [hraw, h])⟩
              · have h2 : (extractUrl surveys (locale.replace "_" "-")).2 =
                    some (.parseError e) := by
                  simpa [surveyRequest, hsurv, hraw] using h
                obtain ⟨loc, val, hl, hv⟩ := extractUrl_parseError h2
                right
                exact ⟨mo, raw, rfl, hsurv, Or.inr ⟨surveys, hraw, loc, val, hl, hv⟩⟩

theorem lantern_c10_witness : surveyRequest okWorld "de" = ("", none) :=
  lantern_c10_missing_survey_key.1 okWorld "de" (fun _ => none) rfl rfl rfl rfl rfl

end Lantern
